import Mathlib

/-!
Catalog and cart model of `script.js`.

A shallow embedding of the `StoreItem`/`Item`/`WeaponItem`, `Inventory` and `Cart`
classes of `src/script.js`, and theorems about their behaviour.

* Item objects are mutable and shared by reference between the inventory and the cart, so
  they live in a heap (`Heap`) and both containers hold references (`Ref`).
* JavaScript numbers are modelled by `Int`, JavaScript strings by `String`.
* A method that mutates `this` becomes a function returning the new object; `alert(...)`
  becomes a returned `StockAlert`.
* `String.prototype.toLowerCase` / `toUpperCase` are built-ins of the host language; the
  functions using them take the case mapping as a parameter (`CaseMapping`).
-/

namespace UniProj

/-! ## Data model -/

/-- Fields set by the constructors of `StoreItem` (`id`, `name`, `price`, `quantity`),
`Item` (`category` ... `imagePath`) and `WeaponItem` (`bladeLength`, absent on a plain
`Item`). The numeric fields hold integers, as those of every item of the source do; prices
with decimals, on which the host's arithmetic rounds, are the subject of `Binary64` and
`Cart.getCartTotal64` below. -/
structure Item where
  id : Int
  name : String
  category : String
  era : String
  region : String
  condition : String
  authenticity : String
  price : Int
  quantity : Int
  imagePath : String
  bladeLength : Option Int
  deriving DecidableEq

/-- Reference to an item object. -/
abbrev Ref := Nat

/-- The item objects of the program, by reference. -/
abbrev Heap := Ref → Item

/-- `reduceQuantity(count)`: `this.quantity = Math.max(0, this.quantity - count)`. -/
def Item.reduceQuantity (it : Item) (count : Int) : Item :=
  { it with quantity := max 0 (it.quantity - count) }

/-- `updateCondition(newCondition)`: `this.condition = newCondition`. -/
def Item.updateCondition (it : Item) (newCondition : String) : Item :=
  { it with condition := newCondition }

/-- `updatePrice(newPrice)`: `this.price = newPrice`. -/
def Item.updatePrice (it : Item) (newPrice : Int) : Item :=
  { it with price := newPrice }

/-- Calling a mutating method on the object behind reference `r`. -/
def Heap.modify (h : Heap) (r : Ref) (f : Item → Item) : Heap :=
  fun r' => if r' = r then f (h r) else h r'

/-! ## Strings -/

/-- `s.includes(searchString)`: `searchString` occurs in `s` as a contiguous run. -/
def includes (s searchString : String) : Bool :=
  s.data.tails.any (fun t => searchString.data.isPrefixOf t)

/-- The host's `toLowerCase` and `toUpperCase`. The one law assumed of them is that the
empty string lower-cases to itself. -/
structure CaseMapping where
  toLowerCase : String → String
  toUpperCase : String → String
  toLowerCase_empty : toLowerCase "" = ""

/-- Lower-case mapping of one character of Basic Latin (`A`-`Z` to `a`-`z`); `ß` and every
other character of Basic Latin lower-case to themselves. -/
def lowerChar (c : Char) : List Char :=
  if 65 ≤ c.toNat ∧ c.toNat ≤ 90 then [Char.ofNat (c.toNat + 32)] else [c]

/-- Upper-case mapping of one character: `a`-`z` to `A`-`Z`, and `ß` (U+00DF) to the two
characters `SS`, as `toUpperCase` does. -/
def upperChar (c : Char) : List Char :=
  if 97 ≤ c.toNat ∧ c.toNat ≤ 122 then [Char.ofNat (c.toNat - 32)]
  else if c.toNat = 223 then ['S', 'S']
  else [c]

/-- The case mapping of ECMAScript on strings over Basic Latin and `ß`. Characters outside
that range are left as they are, so it stands for the host only on such strings. -/
def latinCase : CaseMapping where
  toLowerCase s := String.mk (s.data.flatMap lowerChar)
  toUpperCase s := String.mk (s.data.flatMap upperChar)
  toLowerCase_empty := rfl

/-! ## Inventory -/

/-- `class Inventory`: `this.items`, an array of item references. -/
structure Inventory where
  items : List Ref
  deriving DecidableEq

/-- `constructor() { this.items = []; }`. -/
def Inventory.new : Inventory := { items := [] }

/-- `addItem(item) { this.items.push(item); }`. -/
def Inventory.addItem (inv : Inventory) (item : Ref) : Inventory :=
  { items := inv.items ++ [item] }

/-- `removeItem(itemId) { this.items = this.items.filter(item => item.id !== itemId); }`. -/
def Inventory.removeItem (h : Heap) (inv : Inventory) (itemId : Int) : Inventory :=
  { items := inv.items.filter (fun item => (h item).id != itemId) }

/-- `searchItemByName(name)`:
`this.items.filter(item => item.name.toLowerCase().includes(name.toLowerCase()))`. -/
def Inventory.searchItemByName (cm : CaseMapping) (h : Heap) (inv : Inventory)
    (name : String) : List Ref :=
  inv.items.filter (fun item => includes (cm.toLowerCase (h item).name) (cm.toLowerCase name))

/-- `listAllItems() { return this.items; }`. -/
def Inventory.listAllItems (inv : Inventory) : List Ref :=
  inv.items

/-- `getItemById(id) { return this.items.find(item => item.id === id); }`; `undefined`
is `none`. -/
def Inventory.getItemById (h : Heap) (inv : Inventory) (id : Int) : Option Ref :=
  inv.items.find? (fun item => (h item).id == id)

/-! ## Cart -/

/-- A cart line `{ item, quantityInCart }`. -/
structure CartLine where
  item : Ref
  quantityInCart : Int
  deriving DecidableEq

/-- `class Cart`: `this.cartItems`, an array of cart lines. -/
structure Cart where
  cartItems : List CartLine
  deriving DecidableEq

/-- `constructor() { this.cartItems = []; }`. -/
def Cart.new : Cart := { cartItems := [] }

/-- The values interpolated into the message `addToCart` passes to `alert`:
`item.quantity`, `item.name` and the quantity already in the cart. -/
structure StockAlert where
  available : Int
  name : String
  inCart : Int
  deriving DecidableEq

/-- The text of the alert. -/
def StockAlert.message (a : StockAlert) : String :=
  "Sorry, we only have " ++ toString a.available ++ " of " ++ String.singleton (Char.ofNat 34)
    ++ a.name ++ String.singleton (Char.ofNat 34) ++ " in stock. You already have "
    ++ toString a.inCart ++ " in your cart."

/-- What a call of `addToCart` leaves behind: the cart, and the alert when it gave one. -/
structure AddOutcome where
  cart : Cart
  alert : Option StockAlert
  deriving DecidableEq

/-- `existingCartItem.quantityInCart += quantity`, where `existingCartItem` is the line
that `this.cartItems.find(ci => ci.item.id === itemId)` returns: the first line with that
item id is updated in place. -/
def Cart.incrementFirst (h : Heap) (itemId : Int) (quantity : Int) :
    List CartLine → List CartLine
  | [] => []
  | ci :: rest =>
    if (h ci.item).id = itemId then
      { ci with quantityInCart := ci.quantityInCart + quantity } :: rest
    else ci :: Cart.incrementFirst h itemId quantity rest

/-- `addToCart(item, quantity = 1)`, lines 106-123. The caller passes `quantity`; the
source's default is `1`. -/
def Cart.addToCart (h : Heap) (c : Cart) (item : Ref) (quantity : Int) : AddOutcome :=
  let existingCartItem := c.cartItems.find? (fun ci => (h ci.item).id == (h item).id)
  let newTotalInCart :=
    match existingCartItem with
    | some e => e.quantityInCart + quantity
    | none => quantity
  if newTotalInCart > (h item).quantity then
    { cart := c
      alert := some
        { available := (h item).quantity
          name := (h item).name
          inCart :=
            match existingCartItem with
            | some e => e.quantityInCart
            | none => 0 } }
  else
    match existingCartItem with
    | some _ =>
      { cart := { cartItems := Cart.incrementFirst h (h item).id quantity c.cartItems }
        alert := none }
    | none =>
      { cart := { cartItems := c.cartItems ++ [{ item := item, quantityInCart := quantity }] }
        alert := none }

/-- `removeFromCart(itemId)`:
`this.cartItems = this.cartItems.filter(ci => ci.item.id !== itemId)`. -/
def Cart.removeFromCart (h : Heap) (c : Cart) (itemId : Int) : Cart :=
  { cartItems := c.cartItems.filter (fun ci => (h ci.item).id != itemId) }

/-- `clearCart() { this.cartItems = []; }`. -/
def Cart.clearCart (_c : Cart) : Cart :=
  { cartItems := [] }

/-- `getCartItems() { return this.cartItems; }`. -/
def Cart.getCartItems (c : Cart) : List CartLine :=
  c.cartItems

/-- `getCartTotal()`:
`this.cartItems.reduce((sum, ci) => sum + ci.item.price * ci.quantityInCart, 0)`. -/
def Cart.getCartTotal (h : Heap) (c : Cart) : Int :=
  c.cartItems.foldl (fun sum ci => sum + (h ci.item).price * ci.quantityInCart) 0

/-! ## Sequences of cart calls -/

/-- One mutating call on the cart. -/
inductive CartOp where
  | addToCart (item : Ref) (quantity : Int)
  | removeFromCart (itemId : Int)
  | clearCart
  deriving DecidableEq

/-- The cart after one call. -/
def Cart.step (h : Heap) (c : Cart) : CartOp → Cart
  | .addToCart item quantity => (c.addToCart h item quantity).cart
  | .removeFromCart itemId => c.removeFromCart h itemId
  | .clearCart => c.clearCart

/-- The cart after a sequence of calls, the heap being the same throughout. -/
def Cart.run (h : Heap) (c : Cart) (ops : List CartOp) : Cart :=
  ops.foldl (Cart.step h) c

/-- The items passed to `addToCart` in a sequence of calls. -/
def addedItems : List CartOp → List Ref
  | [] => []
  | .addToCart item _ :: ops => item :: addedItems ops
  | _ :: ops => addedItems ops

/-! ## Notions the specification uses -/

/-- The existing line for an item id: the first line of the cart whose item has that id. -/
def Cart.lineFor (h : Heap) (c : Cart) (itemId : Int) : Option CartLine :=
  c.cartItems.find? (fun ci => (h ci.item).id == itemId)

/-- The quantity already held for an item id: the `quantityInCart` of its line, `0` when
there is none. -/
def Cart.heldQuantity (h : Heap) (c : Cart) (itemId : Int) : Int :=
  match c.lineFor h itemId with
  | some e => e.quantityInCart
  | none => 0

/-- Sum of `quantityInCart` over the lines of the cart. -/
def Cart.totalQuantity (c : Cart) : Int :=
  (c.cartItems.map (fun ci => ci.quantityInCart)).sum

/-- Sum over the lines of `item.price * quantityInCart`, as the specification words it. -/
def Cart.specTotal (h : Heap) (c : Cart) : Int :=
  (c.cartItems.map (fun ci => (h ci.item).price * ci.quantityInCart)).sum

/-! ## Invariants -/

/-- Shape of a cart that only `item` was ever added to: no line, or one line for `item`
holding no more than its stock. -/
def singleLine (h : Heap) (item : Ref) (c : Cart) : Prop :=
  c.cartItems = [] ∨
    ∃ n : Int, c.cartItems = [{ item := item, quantityInCart := n }] ∧ n ≤ (h item).quantity

/-- Every line refers to an item of `S` and holds no more than that item's stock. -/
def withinStock (h : Heap) (S : List Ref) (c : Cart) : Prop :=
  ∀ ci ∈ c.cartItems, ci.item ∈ S ∧ ci.quantityInCart ≤ (h ci.item).quantity

/-! ## Concrete items -/

/-- An `Item` with the fields the operations read; the descriptive ones empty. -/
def Item.plain (id : Int) (name : String) (price quantity : Int) : Item :=
  { id := id, name := name, category := "", era := "", region := "", condition := "",
    authenticity := "", price := price, quantity := quantity, imagePath := "",
    bladeLength := none }

/-- Heap in which reference `r` holds an item with id `r`, price `500` and stock `2`, as
`item1` of the source (line 147). -/
def swordHeap : Heap := fun r => Item.plain r "Antique Georgian Sword" 500 2

/-- Heap in which reference `r` holds an item with id `r`, price `150` and stock `10`, as
`item3` of the source (line 149). -/
def coinHeap : Heap := fun r => Item.plain r "Georgian Silver Coin" 150 10

/-- Heap in which every item has stock `-1`. -/
def negativeStockHeap : Heap := fun r => Item.plain r "Clay Pottery Vessel" 300 (-1)

/-- Two item objects with the same id `1`: reference `0` with stock `1`, every other
reference with stock `5`. -/
def sharedIdHeap : Heap := fun r =>
  if r = 0 then Item.plain 1 "Bronze Pectoral Cross" 700 1
  else Item.plain 1 "Bronze Pectoral Cross" 700 5

/-- Heap whose item `0` is named `Straße`; every other item is the sample sword. -/
def strasseHeap : Heap := fun r =>
  if r = 0 then Item.plain 0 "Straße" 100 1 else Item.plain r "Antique Georgian Sword" 500 2

/-! ## Program state -/

/-- The state of the program: the item objects, `myInventory` and `myCart`. -/
structure World where
  heap : Heap
  myInventory : Inventory
  myCart : Cart

/-- The state after `const myInventory = new Inventory(); let myCart = new Cart();`, the
item objects being those of `heap`. -/
def World.init (heap : Heap) : World :=
  { heap := heap, myInventory := Inventory.new, myCart := Cart.new }

/-- A method call on an item object, on `myInventory` or on `myCart`. -/
inductive Call where
  | reduceQuantity (item : Ref) (count : Int)
  | updateCondition (item : Ref) (newCondition : String)
  | updatePrice (item : Ref) (newPrice : Int)
  | addItem (item : Ref)
  | removeItem (itemId : Int)
  | searchItemByName (name : String)
  | listAllItems
  | getItemById (id : Int)
  | addToCart (item : Ref) (quantity : Int)
  | removeFromCart (itemId : Int)
  | clearCart
  | getCartItems
  | getCartTotal
  deriving DecidableEq

/-- The calls that are methods of `Cart`. -/
def Call.isCartCall : Call → Bool
  | .addToCart _ _ => true
  | .removeFromCart _ => true
  | .clearCart => true
  | .getCartItems => true
  | .getCartTotal => true
  | _ => false

/-- `addToCart(item, quantity = 1)` as a transition of the program state, lines 106-123.
The method reaches the item objects through `item` and through `ci.item`, so it is given
the whole state and returns the whole state, with the alert when it gave one. -/
def World.addToCart (w : World) (item : Ref) (quantity : Int) : World × Option StockAlert :=
  let existingCartItem :=
    w.myCart.cartItems.find? (fun ci => (w.heap ci.item).id == (w.heap item).id)
  let newTotalInCart :=
    match existingCartItem with
    | some e => e.quantityInCart + quantity
    | none => quantity
  if newTotalInCart > (w.heap item).quantity then
    (w, some
      { available := (w.heap item).quantity
        name := (w.heap item).name
        inCart :=
          match existingCartItem with
          | some e => e.quantityInCart
          | none => 0 })
  else
    match existingCartItem with
    | some _ =>
      ({ w with
          myCart :=
            { cartItems :=
                Cart.incrementFirst w.heap (w.heap item).id quantity w.myCart.cartItems } },
        none)
    | none =>
      ({ w with
          myCart :=
            { cartItems :=
                w.myCart.cartItems ++ [{ item := item, quantityInCart := quantity }] } },
        none)

/-- `removeFromCart(itemId)` as a transition of the program state, lines 125-127. -/
def World.removeFromCart (w : World) (itemId : Int) : World :=
  { w with
      myCart :=
        { cartItems := w.myCart.cartItems.filter (fun ci => (w.heap ci.item).id != itemId) } }

/-- `clearCart()` as a transition of the program state, lines 129-131. -/
def World.clearCart (w : World) : World :=
  { w with myCart := { cartItems := [] } }

/-- `getCartItems()` run in the program state, lines 133-135: the state it leaves and the
value it returns. -/
def World.getCartItems (w : World) : World × List CartLine :=
  (w, w.myCart.cartItems)

/-- `getCartTotal()` run in the program state, lines 137-139: the state it leaves and the
value it returns. -/
def World.getCartTotal (w : World) : World × Int :=
  (w, w.myCart.cartItems.foldl (fun sum ci => sum + (w.heap ci.item).price * ci.quantityInCart)
    0)

/-- The state after one call. The methods of `Inventory` that only return a value
(`searchItemByName`, `listAllItems`, `getItemById`) assign to nothing. -/
def World.step (w : World) : Call → World
  | .reduceQuantity item count =>
    { w with heap := w.heap.modify item (fun it => it.reduceQuantity count) }
  | .updateCondition item newCondition =>
    { w with heap := w.heap.modify item (fun it => it.updateCondition newCondition) }
  | .updatePrice item newPrice =>
    { w with heap := w.heap.modify item (fun it => it.updatePrice newPrice) }
  | .addItem item => { w with myInventory := w.myInventory.addItem item }
  | .removeItem itemId => { w with myInventory := w.myInventory.removeItem w.heap itemId }
  | .searchItemByName _ => w
  | .listAllItems => w
  | .getItemById _ => w
  | .addToCart item quantity => (w.addToCart item quantity).1
  | .removeFromCart itemId => w.removeFromCart itemId
  | .clearCart => w.clearCart
  | .getCartItems => w.getCartItems.1
  | .getCartTotal => w.getCartTotal.1

/-- The state after a sequence of calls. -/
def World.run (w : World) (calls : List Call) : World :=
  calls.foldl World.step w

/-- The quantity arguments of the `addToCart` calls of a sequence. -/
def addedQuantities : List CartOp → List Int
  | [] => []
  | .addToCart _ quantity :: ops => quantity :: addedQuantities ops
  | _ :: ops => addedQuantities ops

/-- The item ids of the lines of the cart, in order. -/
def Cart.lineIds (h : Heap) (c : Cart) : List Int :=
  c.cartItems.map (fun ci => (h ci.item).id)

/-! ## Prices with decimals -/

/-- A finite IEEE 754 binary64 number `mant * 2 ^ exp`, normalised: `0` is `mant = 0`,
`exp = 0`, and otherwise `2 ^ 52 <= |mant| < 2 ^ 53`. Infinities, NaN and the bounds of the
exponent are left out: the numbers here are well inside the range. -/
structure Binary64 where
  mant : Int
  exp : Int
  deriving DecidableEq

/-- Number of times `n` can be halved before it reaches `1`, `fuel` bounding the count. -/
def halvings : Nat → Nat → Nat
  | 0, _ => 0
  | fuel + 1, n => if n ≤ 1 then 0 else halvings fuel (n / 2) + 1

/-- The integer part of the binary logarithm: `2 ^ log2Floor n <= n < 2 ^ (log2Floor n + 1)`
for `n > 0`. -/
def log2Floor (n : Nat) : Nat := halvings n n

/-- The binary64 number nearest to `num / den`, ties going to the even significand: the
rounding the host applies to the exact result of every operation and to a decimal literal.
The shift `s` is chosen with `2 ^ 52 <= |num| * 2 ^ s / den < 2 ^ 53`. -/
def Binary64.nearest (num : Int) (den : Nat) : Binary64 :=
  if num = 0 ∨ den = 0 then { mant := 0, exp := 0 }
  else
    let a := num.natAbs
    let s₀ : Int := 53 + (log2Floor den : Int) - (log2Floor a : Int)
    let s : Int := if a * 2 ^ s₀.toNat / (den * 2 ^ (-s₀).toNat) < 2 ^ 53 then s₀ else s₀ - 1
    let n := a * 2 ^ s.toNat
    let d := den * 2 ^ (-s).toNat
    let q := n / d
    let r := n % d
    let q' := if 2 * r > d ∨ (2 * r = d ∧ q % 2 = 1) then q + 1 else q
    if q' = 2 ^ 53 then { mant := num.sign * 2 ^ 52, exp := 1 - s }
    else { mant := num.sign * q', exp := -s }

/-- The binary64 number nearest to `mant * 2 ^ exp`. -/
def Binary64.ofExact (mant exp : Int) : Binary64 :=
  Binary64.nearest (mant * 2 ^ exp.toNat) (2 ^ (-exp).toNat)

/-- The host's `x + y`: the exact sum, rounded. -/
def Binary64.add (x y : Binary64) : Binary64 :=
  Binary64.ofExact
    (x.mant * 2 ^ (x.exp - min x.exp y.exp).toNat + y.mant * 2 ^ (y.exp - min x.exp y.exp).toNat)
    (min x.exp y.exp)

/-- The host's `x * y`: the exact product, rounded. -/
def Binary64.mul (x y : Binary64) : Binary64 :=
  Binary64.ofExact (x.mant * y.mant) (x.exp + y.exp)

/-- The host's `x - y`: the exact difference, rounded. -/
def Binary64.sub (x y : Binary64) : Binary64 :=
  x.add { mant := -y.mant, exp := y.exp }

/-- An integer as a number of the host. -/
def Binary64.ofInt (n : Int) : Binary64 := Binary64.nearest n 1

/-- `getCartTotal()` of line 138 in the arithmetic of the host, `price` giving the price of
each item object: `this.cartItems.reduce((sum, ci) => sum + ci.item.price *
ci.quantityInCart, 0)`. -/
def Cart.getCartTotal64 (price : Ref → Binary64) (c : Cart) : Binary64 :=
  c.cartItems.foldl
    (fun sum ci => sum.add ((price ci.item).mul (Binary64.ofInt ci.quantityInCart)))
    (Binary64.ofInt 0)

/-- `updatePrice(newPrice)` on the item object `item`, on the prices of the host. -/
def updatePrice64 (price : Ref → Binary64) (item : Ref) (newPrice : Binary64) :
    Ref → Binary64 :=
  fun r => if r = item then newPrice else price r

/-- Item `1` priced `19.99`, every other item `4.35`. -/
def decimalPrices : Ref → Binary64 :=
  fun r => if r = 1 then Binary64.nearest 1999 100 else Binary64.nearest 435 100

/-! ## Lemmas on the list operations -/

theorem find?_id_eq_none (h : Heap) (itemId : Int) (l : List CartLine) :
    l.find? (fun ci => (h ci.item).id == itemId) = none ↔
      ∀ x ∈ l, (h x.item).id ≠ itemId := by
  simp [List.find?_eq_none]

theorem find?_split (h : Heap) (itemId : Int) (pre post : List CartLine) (x : CartLine)
    (hpre : ∀ y ∈ pre, (h y.item).id ≠ itemId) (hx : (h x.item).id = itemId) :
    (pre ++ x :: post).find? (fun ci => (h ci.item).id == itemId) = some x := by
  induction pre with
  | nil => simp [hx]
  | cons y pre ih =>
    have hy : (h y.item).id ≠ itemId := hpre y (by simp)
    have hb : ((h y.item).id == itemId) = false := by simpa using hy
    rw [List.cons_append, List.find?_cons, hb]
    exact ih (fun z hz => hpre z (by simp [hz]))

/-- When `find` returns the line `e`, the cart splits around it, no earlier line has the
id, and the in-place update replaces exactly `e`. -/
theorem incrementFirst_split (h : Heap) (itemId quantity : Int) :
    ∀ (l : List CartLine) (e : CartLine),
      l.find? (fun ci => (h ci.item).id == itemId) = some e →
      ∃ pre post, l = pre ++ e :: post ∧ (∀ x ∈ pre, (h x.item).id ≠ itemId) ∧
        (h e.item).id = itemId ∧
        Cart.incrementFirst h itemId quantity l =
          pre ++ { item := e.item, quantityInCart := e.quantityInCart + quantity } :: post := by
  intro l
  induction l with
  | nil => intro e hf; simp at hf
  | cons ci rest ih =>
    intro e hf
    by_cases hid : (h ci.item).id = itemId
    · have hce : ci = e := by simpa [List.find?, hid] using hf
      subst hce
      exact ⟨[], rest, rfl, by simp, hid, by simp [Cart.incrementFirst, hid]⟩
    · have hf2 : rest.find? (fun ci => (h ci.item).id == itemId) = some e := by
        rw [List.find?_cons] at hf
        have hb : ((h ci.item).id == itemId) = false := by simpa using hid
        simpa [hb] using hf
      obtain ⟨pre, post, hl, hpre, he, hinc⟩ := ih e hf2
      refine ⟨ci :: pre, post, by simp [hl], ?_, he, ?_⟩
      · intro x hx
        rcases List.mem_cons.mp hx with rfl | hx
        · exact hid
        · exact hpre x hx
      · simp [Cart.incrementFirst, hid, hinc]

theorem foldl_add_eq_sum {α : Type} (f : α → Int) (l : List α) :
    ∀ a : Int, l.foldl (fun sum x => sum + f x) a = a + (l.map f).sum := by
  induction l with
  | nil => intro a; simp
  | cons x xs ih => intro a; simp [ih, add_assoc]

/-- `includes` is the contiguous-sublist relation on the characters. -/
theorem includes_iff_contiguous (s t : String) : includes s t = true ↔ t.data <:+: s.data := by
  unfold includes
  rw [List.any_eq_true, List.infix_iff_prefix_suffix]
  constructor
  · rintro ⟨u, hu, hp⟩
    exact ⟨u, List.isPrefixOf_iff_prefix.mp hp, (List.mem_tails _ _).mp hu⟩
  · rintro ⟨u, hp, hu⟩
    exact ⟨u, (List.mem_tails _ _).mpr hu, List.isPrefixOf_iff_prefix.mpr hp⟩

/-! ## Case mapping on Basic Latin -/

theorem upper_then_lower_char :
    ∀ n : Nat, n < 128 →
      (upperChar (Char.ofNat n)).flatMap lowerChar = lowerChar (Char.ofNat n) := by
  decide

theorem lower_then_lower_char :
    ∀ n : Nat, n < 128 →
      (lowerChar (Char.ofNat n)).flatMap lowerChar = lowerChar (Char.ofNat n) := by
  decide

/-- On a string of Basic Latin characters, upper-casing and then lower-casing gives the
lower-cased string, and lower-casing twice is lower-casing once. -/
theorem latinCase_ascii (q : String) (hascii : ∀ c ∈ q.data, c.toNat < 128) :
    latinCase.toLowerCase (latinCase.toUpperCase q) = latinCase.toLowerCase q ∧
    latinCase.toLowerCase (latinCase.toLowerCase q) = latinCase.toLowerCase q := by
  have key : ∀ l : List Char, (∀ c ∈ l, c.toNat < 128) →
      (l.flatMap upperChar).flatMap lowerChar = l.flatMap lowerChar ∧
      (l.flatMap lowerChar).flatMap lowerChar = l.flatMap lowerChar := by
    intro l
    induction l with
    | nil => intro _; simp
    | cons c cs ih =>
      intro hl
      have hc : c.toNat < 128 := hl c (by simp)
      have h1 := upper_then_lower_char c.toNat hc
      have h2 := lower_then_lower_char c.toNat hc
      have hcc : Char.ofNat c.toNat = c := by simp
      rw [hcc] at h1 h2
      obtain ⟨i1, i2⟩ := ih (fun d hd => hl d (by simp [hd]))
      simp only [List.flatMap_cons, List.flatMap_append, h1, h2, i1, i2, and_self]
  obtain ⟨k1, k2⟩ := key q.data hascii
  simp only [latinCase, k1, k2, and_self]

/-! ## Invariants of the cart under sequences of calls -/

theorem singleLine_addToCart (h : Heap) (item : Ref) (quantity : Int) (c : Cart)
    (hc : singleLine h item c) : singleLine h item (c.addToCart h item quantity).cart := by
  rcases hc with hnil | ⟨n, hn, hle⟩
  · by_cases hq : quantity > (h item).quantity
    · left; simp [Cart.addToCart, hnil, hq]
    · right
      refine ⟨quantity, ?_, by omega⟩
      simp [Cart.addToCart, hnil, hq]
  · by_cases hq : n + quantity > (h item).quantity
    · right
      refine ⟨n, ?_, hle⟩
      simp [Cart.addToCart, hn, hq]
    · right
      refine ⟨n + quantity, ?_, by omega⟩
      simp [Cart.addToCart, hn, hq, Cart.incrementFirst]

theorem singleLine_run (h : Heap) (item : Ref) (qs : List Int) :
    ∀ c : Cart, singleLine h item c →
      singleLine h item (Cart.run h c (qs.map (CartOp.addToCart item))) := by
  induction qs with
  | nil => intro c hc; simpa [Cart.run] using hc
  | cons q qs ih =>
    intro c hc
    have := ih _ (singleLine_addToCart h item q c hc)
    simpa [Cart.run, Cart.step] using this

theorem withinStock_addToCart (h : Heap) (S : List Ref)
    (huniq : ∀ r₁ ∈ S, ∀ r₂ ∈ S, (h r₁).id = (h r₂).id → r₁ = r₂)
    (c : Cart) (item : Ref) (quantity : Int) (hitem : item ∈ S)
    (hc : withinStock h S c) : withinStock h S (c.addToCart h item quantity).cart := by
  unfold Cart.addToCart
  cases hf : c.cartItems.find? (fun ci => (h ci.item).id == (h item).id) with
  | none =>
    by_cases hq : quantity > (h item).quantity
    · simpa [hq] using hc
    · intro ci hci
      simp only [hq, if_false, List.mem_append, List.mem_singleton] at hci
      rcases hci with hci | rfl
      · exact hc ci hci
      · exact ⟨hitem, by simpa using hq⟩
  | some e =>
    by_cases hq : e.quantityInCart + quantity > (h item).quantity
    · simpa [hq] using hc
    · obtain ⟨pre, post, hl, -, hid, hinc⟩ :=
        incrementFirst_split h (h item).id quantity c.cartItems e hf
      have he : e ∈ c.cartItems := by rw [hl]; simp
      have heq : e.item = item := huniq _ (hc e he).1 _ hitem hid
      intro ci hci
      simp only [hq, if_false, hinc, List.mem_append, List.mem_cons] at hci
      rcases hci with hci | rfl | hci
      · exact hc ci (by rw [hl]; simp [hci])
      · refine ⟨(hc e he).1, ?_⟩
        simp only [heq]
        omega
      · exact hc ci (by rw [hl]; simp [hci])

theorem withinStock_run (h : Heap) (S : List Ref)
    (huniq : ∀ r₁ ∈ S, ∀ r₂ ∈ S, (h r₁).id = (h r₂).id → r₁ = r₂) (ops : List CartOp) :
    ∀ c : Cart, (∀ r ∈ addedItems ops, r ∈ S) → withinStock h S c →
      withinStock h S (Cart.run h c ops) := by
  induction ops with
  | nil => intro c _ hc; simpa [Cart.run] using hc
  | cons op ops ih =>
    intro c hS hc
    have hrun : Cart.run h c (op :: ops) = Cart.run h (Cart.step h c op) ops := rfl
    rw [hrun]
    cases op with
    | addToCart item quantity =>
      have hS2 : ∀ r ∈ addedItems ops, r ∈ S := fun r hr => hS r (by simp [addedItems, hr])
      exact ih _ hS2 (withinStock_addToCart h S huniq c item quantity
        (hS item (by simp [addedItems])) hc)
    | removeFromCart itemId =>
      refine ih _ (fun r hr => hS r (by simpa [addedItems] using hr)) ?_
      intro ci hci
      exact hc ci (List.mem_of_mem_filter hci)
    | clearCart =>
      refine ih _ (fun r hr => hS r (by simpa [addedItems] using hr)) ?_
      intro ci hci
      simp [Cart.step, Cart.clearCart] at hci

/-! ## Claims on `Cart.addToCart` -/

/-- C1: `addToCart(item, quantity)` gives the stock alert exactly when `quantity` plus the
quantity already held for `item.id` exceeds `item.quantity`; the alert then carries
`item.quantity` as the available stock and the held quantity as the quantity in the cart,
and the line sequence of the cart is what it was before the call. -/
theorem addToCart_fails_iff_exceeds (h : Heap) (c : Cart) (item : Ref) (quantity : Int) :
    ((c.addToCart h item quantity).alert.isSome = true ↔
        quantity + c.heldQuantity h (h item).id > (h item).quantity) ∧
    (quantity + c.heldQuantity h (h item).id > (h item).quantity →
        (c.addToCart h item quantity).alert =
            some { available := (h item).quantity, name := (h item).name,
                   inCart := c.heldQuantity h (h item).id } ∧
        (c.addToCart h item quantity).cart.cartItems = c.cartItems) := by
  unfold Cart.addToCart Cart.heldQuantity Cart.lineFor
  cases hf : c.cartItems.find? (fun ci => (h ci.item).id == (h item).id) with
  | none =>
    by_cases hq : quantity > (h item).quantity
    · simp [hq]
    · simp [hq]
  | some e =>
    by_cases hq : e.quantityInCart + quantity > (h item).quantity
    · have hq2 : (h item).quantity < quantity + e.quantityInCart := by omega
      simp [hq, hq2]
    · have hq2 : ¬ (h item).quantity < quantity + e.quantityInCart := by omega
      simp [hq, hq2]

/-- The scenario of the specification: stock `2`, one unit held, two more asked for. -/
theorem addToCart_fails_iff_exceeds_witness :
    ((Cart.mk [{ item := 1, quantityInCart := 1 }]).addToCart swordHeap 1 2).alert =
        some { available := 2, name := "Antique Georgian Sword", inCart := 1 } ∧
    ((Cart.mk [{ item := 1, quantityInCart := 1 }]).addToCart swordHeap 1 2).cart.cartItems =
        [{ item := 1, quantityInCart := 1 }] :=
  (addToCart_fails_iff_exceeds swordHeap (Cart.mk [{ item := 1, quantityInCart := 1 }]) 1 2).2
    (by decide)

/-- C2: when `quantity` plus the quantity already held does not exceed `item.quantity`,
`addToCart` gives no alert and: if the cart has a line for `item.id`, the cart is
`pre ++ e :: post` with `e` the first such line, and becomes `pre ++ e' :: post` where `e'`
is `e` with `quantityInCart` grown by `quantity`; if it has none, the new line sequence is
the old one followed by the line `{item, quantityInCart = quantity}`. -/
theorem addToCart_within_stock (h : Heap) (c : Cart) (item : Ref) (quantity : Int)
    (hq : quantity + c.heldQuantity h (h item).id ≤ (h item).quantity) :
    (c.addToCart h item quantity).alert = none ∧
    (∀ e, c.lineFor h (h item).id = some e →
      ∃ pre post, c.cartItems = pre ++ e :: post ∧
        (∀ x ∈ pre, (h x.item).id ≠ (h item).id) ∧ (h e.item).id = (h item).id ∧
        (c.addToCart h item quantity).cart.cartItems =
          pre ++ { item := e.item, quantityInCart := e.quantityInCart + quantity } :: post) ∧
    (c.lineFor h (h item).id = none →
      (∀ x ∈ c.cartItems, (h x.item).id ≠ (h item).id) ∧
      (c.addToCart h item quantity).cart.cartItems =
        c.cartItems ++ [{ item := item, quantityInCart := quantity }]) := by
  unfold Cart.heldQuantity Cart.lineFor at hq
  unfold Cart.addToCart Cart.lineFor
  cases hf : c.cartItems.find? (fun ci => (h ci.item).id == (h item).id) with
  | none =>
    rw [hf] at hq
    have hq2 : ¬ quantity > (h item).quantity := by simp at hq; omega
    simp only [hq2, if_false]
    refine ⟨trivial, by simp, fun _ => ⟨(find?_id_eq_none h _ _).mp hf, trivial⟩⟩
  | some e =>
    rw [hf] at hq
    have hq2 : ¬ e.quantityInCart + quantity > (h item).quantity := by simp at hq; omega
    simp only [hq2, if_false]
    refine ⟨trivial, ?_, by simp⟩
    intro e' he'
    cases he'
    exact incrementFirst_split h (h item).id quantity c.cartItems e hf

/-- One unit of the sword held, one more added: the single line grows to `2`. -/
theorem addToCart_within_stock_witness :
    (1 : Int) + (Cart.mk [{ item := 1, quantityInCart := 1 }]).heldQuantity swordHeap
        (swordHeap 1).id ≤ (swordHeap 1).quantity ∧
    ((Cart.mk [{ item := 1, quantityInCart := 1 }]).addToCart swordHeap 1 1).alert = none ∧
    ((Cart.mk [{ item := 1, quantityInCart := 1 }]).addToCart swordHeap 1 1).cart.cartItems =
        [{ item := 1, quantityInCart := 2 }] :=
  ⟨by decide,
    (addToCart_within_stock swordHeap (Cart.mk [{ item := 1, quantityInCart := 1 }]) 1 1
      (by decide)).1,
    by decide⟩

/-- C3, as amended: for an item of non-negative stock and any sequence of `addToCart` calls
on that item from the empty cart, with any quantities, the sum of `quantityInCart` over the
lines of the cart is at most `item.quantity` after each call (after the first `k` calls,
for every `k`). -/
theorem stock_bound_single_item (h : Heap) (item : Ref) (qs : List Int) (k : Nat)
    (hstock : 0 ≤ (h item).quantity) :
    (Cart.run h Cart.new ((qs.take k).map (CartOp.addToCart item))).totalQuantity
      ≤ (h item).quantity := by
  rcases singleLine_run h item (qs.take k) Cart.new (Or.inl rfl) with hnil | ⟨n, hn, hle⟩
  · rw [Cart.totalQuantity, hnil]
    simpa using hstock
  · rw [Cart.totalQuantity, hn]
    simpa using hle

/-- Five calls on the sword of stock `2`, checked after the fourth. -/
theorem stock_bound_single_item_witness :
    0 ≤ (swordHeap 1).quantity ∧
    (Cart.run swordHeap Cart.new
        (([1, 2, 1, -4, 5].take 4).map (CartOp.addToCart 1))).totalQuantity
      ≤ (swordHeap 1).quantity :=
  ⟨by decide, stock_bound_single_item swordHeap 1 [1, 2, 1, -4, 5] 4 (by decide)⟩

/-- C3 as stated fails for an item of negative stock: the one call `addToCart(item, 1)` on
an item of stock `-1` is rejected, the cart stays empty, and its sum `0` exceeds the stock. -/
theorem stock_bound_fails_negative_stock :
    (Cart.run negativeStockHeap Cart.new
        (([1].take 1).map (CartOp.addToCart 2))).cartItems = [] ∧
    ¬ ((Cart.run negativeStockHeap Cart.new
          (([1].take 1).map (CartOp.addToCart 2))).totalQuantity
        ≤ (negativeStockHeap 2).quantity) := by
  decide

/-- C4, as amended: if no two distinct items among those passed to `addToCart` share an id,
then in the cart reached from the empty cart by any sequence of `addToCart`,
`removeFromCart` and `clearCart` calls every line has
`quantityInCart <= ` the quantity of the item it references. -/
theorem lines_within_stock_of_unique_ids (h : Heap) (ops : List CartOp)
    (huniq : ∀ r₁ ∈ addedItems ops, ∀ r₂ ∈ addedItems ops,
      (h r₁).id = (h r₂).id → r₁ = r₂) :
    ∀ ci ∈ (Cart.run h Cart.new ops).cartItems,
      ci.quantityInCart ≤ (h ci.item).quantity := by
  intro ci hci
  have hnew : withinStock h (addedItems ops) Cart.new := by
    intro x hx
    simp [Cart.new] at hx
  exact (withinStock_run h (addedItems ops) huniq ops Cart.new (fun _ hr => hr) hnew ci hci).2

/-- Four calls on the items `3` and `5` of the coin heap, whose ids differ. -/
theorem lines_within_stock_of_unique_ids_witness :
    (∀ r₁ ∈ addedItems [CartOp.addToCart 3 4, CartOp.addToCart 5 10, CartOp.removeFromCart 5,
        CartOp.addToCart 3 7],
      ∀ r₂ ∈ addedItems [CartOp.addToCart 3 4, CartOp.addToCart 5 10, CartOp.removeFromCart 5,
        CartOp.addToCart 3 7],
      (coinHeap r₁).id = (coinHeap r₂).id → r₁ = r₂) ∧
    ∀ ci ∈ (Cart.run coinHeap Cart.new [CartOp.addToCart 3 4, CartOp.addToCart 5 10,
        CartOp.removeFromCart 5, CartOp.addToCart 3 7]).cartItems,
      ci.quantityInCart ≤ (coinHeap ci.item).quantity :=
  ⟨by decide, lines_within_stock_of_unique_ids coinHeap _ (by decide)⟩

/-- C4 as stated fails when two item objects share an id: after `addToCart(a, 1)` and
`addToCart(b, 3)`, where `a` (stock `1`) and `b` (stock `5`) both have id `1`, the one
line references `a` and holds `4`. -/
theorem lines_within_stock_fails_shared_id :
    (Cart.run sharedIdHeap Cart.new
        [CartOp.addToCart 0 1, CartOp.addToCart 1 3]).cartItems
      = [{ item := 0, quantityInCart := 4 }] ∧
    (sharedIdHeap 0).quantity = 1 ∧
    ¬ (∀ ci ∈ (Cart.run sharedIdHeap Cart.new
          [CartOp.addToCart 0 1, CartOp.addToCart 1 3]).cartItems,
        ci.quantityInCart ≤ (sharedIdHeap ci.item).quantity) := by
  decide

/-- C5, as amended: for `quantity <= 0`, `addToCart` leaves the line sequence unchanged
exactly when the stock check rejects the call, or `quantity = 0` and the cart already has a
line for `item.id`; in every other case the cart changes. The quantity held for `item.id`
never grows. -/
theorem addToCart_nonpositive (h : Heap) (c : Cart) (item : Ref)
    (quantity : Int) (hq0 : quantity ≤ 0) :
    ((c.addToCart h item quantity).cart.cartItems = c.cartItems ↔
      (quantity + c.heldQuantity h (h item).id > (h item).quantity ∨
        (quantity = 0 ∧ (c.lineFor h (h item).id).isSome = true))) ∧
    (c.addToCart h item quantity).cart.heldQuantity h (h item).id
      ≤ c.heldQuantity h (h item).id := by
  unfold Cart.addToCart Cart.heldQuantity Cart.lineFor
  cases hf : c.cartItems.find? (fun ci => (h ci.item).id == (h item).id) with
  | none =>
    have hnone := (find?_id_eq_none h _ _).mp hf
    by_cases hq : quantity > (h item).quantity
    · simp [hq, hf]
    · have hfind := find?_split h (h item).id c.cartItems []
        { item := item, quantityInCart := quantity } hnone rfl
      simp only [hq, if_false, hfind]
      refine ⟨by simp [hq], hq0⟩
  | some e =>
    obtain ⟨pre, post, hl, hpre, hid, hinc⟩ :=
      incrementFirst_split h (h item).id quantity c.cartItems e hf
    by_cases hq : e.quantityInCart + quantity > (h item).quantity
    · have hq2 : (h item).quantity < quantity + e.quantityInCart := by omega
      simp [hq, hq2, hf]
    · have hq2 : ¬ (h item).quantity < quantity + e.quantityInCart := by omega
      have hfind := find?_split h (h item).id pre post
        { item := e.item, quantityInCart := e.quantityInCart + quantity } hpre hid
      simp only [hq, if_false, hinc, gt_iff_lt, hq2, false_or, Option.isSome_some, and_true,
        hfind]
      refine ⟨?_, by omega⟩
      rw [hl]
      constructor
      · intro heq
        have := List.append_cancel_left heq
        simp only [List.cons.injEq, and_true] at this
        have h2 := congrArg CartLine.quantityInCart this
        simp at h2
        exact h2
      · intro h0
        subst h0
        simp

/-- Two units of the sword held, `-1` added: the call is not rejected, the quantity is not
`0`, and the cart changes. -/
theorem addToCart_nonpositive_witness :
    (-1 : Int) ≤ 0 ∧
    (((Cart.mk [{ item := 1, quantityInCart := 2 }]).addToCart swordHeap 1 (-1)).cart.cartItems
        = (Cart.mk [{ item := 1, quantityInCart := 2 }]).cartItems ↔
      ((-1 : Int) + (Cart.mk [{ item := 1, quantityInCart := 2 }]).heldQuantity swordHeap
            (swordHeap 1).id > (swordHeap 1).quantity ∨
        ((-1 : Int) = 0 ∧
          ((Cart.mk [{ item := 1, quantityInCart := 2 }]).lineFor swordHeap
            (swordHeap 1).id).isSome = true))) ∧
    ((Cart.mk [{ item := 1, quantityInCart := 2 }]).addToCart swordHeap 1
        (-1)).cart.heldQuantity swordHeap (swordHeap 1).id
      ≤ (Cart.mk [{ item := 1, quantityInCart := 2 }]).heldQuantity swordHeap
        (swordHeap 1).id :=
  ⟨by decide,
    addToCart_nonpositive swordHeap (Cart.mk [{ item := 1, quantityInCart := 2 }]) 1 (-1)
      (by decide)⟩

/-- C5 as stated fails: `addToCart(item, 0)` on the empty cart gives no alert and appends
a line with `quantityInCart = 0`; `addToCart(item, -1)` on a cart holding `2` of the item
gives no alert and lowers the line to `1`. -/
theorem addToCart_nonpositive_changes_cart :
    (Cart.new.addToCart swordHeap 1 0).alert = none ∧
    (Cart.new.addToCart swordHeap 1 0).cart.cartItems = [{ item := 1, quantityInCart := 0 }] ∧
    ¬ ((Cart.new.addToCart swordHeap 1 0).cart.cartItems = Cart.new.cartItems) ∧
    ((Cart.mk [{ item := 1, quantityInCart := 2 }]).addToCart swordHeap 1 (-1)).alert
      = none ∧
    ((Cart.mk [{ item := 1, quantityInCart := 2 }]).addToCart swordHeap 1
        (-1)).cart.cartItems = [{ item := 1, quantityInCart := 1 }] := by
  decide

/-! ## Claims on `Cart.getCartTotal` and `Cart.removeFromCart` -/

/-- C6: `getCartTotal()` equals the sum over the lines of the cart of
`item.price * quantityInCart`, and is `0` on the cart with no lines. -/
theorem getCartTotal_eq_sum (h : Heap) (c : Cart) :
    c.getCartTotal h = c.specTotal h ∧ Cart.new.getCartTotal h = 0 := by
  constructor
  · unfold Cart.getCartTotal Cart.specTotal
    rw [foldl_add_eq_sum (fun ci : CartLine => (h ci.item).price * ci.quantityInCart)]
    simp
  · rfl

/-- C7: for an id that no line of the cart has, `removeFromCart(id)` returns the cart
unchanged, and applying it twice gives the same cart as applying it once. -/
theorem removeFromCart_absent (h : Heap) (c : Cart) (itemId : Int)
    (habs : ∀ ci ∈ c.cartItems, (h ci.item).id ≠ itemId) :
    c.removeFromCart h itemId = c ∧
    (c.removeFromCart h itemId).removeFromCart h itemId = c.removeFromCart h itemId := by
  have h1 : c.removeFromCart h itemId = c := by
    cases c with
    | mk l =>
      simp only [Cart.removeFromCart, Cart.mk.injEq, List.filter_eq_self]
      intro ci hci
      simpa using habs ci hci
  exact ⟨h1, by rw [h1, h1]⟩

/-- Removal on the empty cart, and of an id absent from a cart of two lines. -/
theorem removeFromCart_absent_witness :
    ((∀ ci ∈ Cart.new.cartItems, (swordHeap ci.item).id ≠ 7) ∧
      Cart.new.removeFromCart swordHeap 7 = Cart.new ∧
      (Cart.new.removeFromCart swordHeap 7).removeFromCart swordHeap 7
        = Cart.new.removeFromCart swordHeap 7) ∧
    ((∀ ci ∈ (Cart.mk [{ item := 1, quantityInCart := 2 },
          { item := 3, quantityInCart := 1 }]).cartItems, (swordHeap ci.item).id ≠ 2) ∧
      (Cart.mk [{ item := 1, quantityInCart := 2 },
          { item := 3, quantityInCart := 1 }]).removeFromCart swordHeap 2
        = Cart.mk [{ item := 1, quantityInCart := 2 }, { item := 3, quantityInCart := 1 }]) :=
  ⟨⟨by decide, removeFromCart_absent swordHeap Cart.new 7 (by decide)⟩,
    ⟨by decide,
      (removeFromCart_absent swordHeap (Cart.mk [{ item := 1, quantityInCart := 2 },
        { item := 3, quantityInCart := 1 }]) 2 (by decide)).1⟩⟩

/-- C8: after `removeFromCart(id)` no line of the cart has item id `id`, the line sequence
is a subsequence of the previous one, and every subsequence of the previous one that has no
line for `id` is a subsequence of it: the lines for `id` are deleted and all others kept,
unchanged and in their order. -/
theorem removeFromCart_deletes (h : Heap) (c : Cart) (itemId : Int) :
    (∀ ci ∈ (c.removeFromCart h itemId).cartItems, (h ci.item).id ≠ itemId) ∧
    (c.removeFromCart h itemId).cartItems.Sublist c.cartItems ∧
    (∀ l : List CartLine, l.Sublist c.cartItems → (∀ ci ∈ l, (h ci.item).id ≠ itemId) →
      l.Sublist (c.removeFromCart h itemId).cartItems) := by
  refine ⟨?_, ?_, ?_⟩
  · intro ci hci
    simpa [Cart.removeFromCart] using (List.mem_filter.mp hci).2
  · exact List.filter_sublist _
  · intro l hl hall
    have hfil : l.filter (fun ci => (h ci.item).id != itemId) = l := by
      rw [List.filter_eq_self]
      intro ci hci
      simpa using hall ci hci
    have := hl.filter (fun ci => (h ci.item).id != itemId)
    rw [hfil] at this
    exact this

/-! ## Claims on `Inventory.searchItemByName` -/

/-- C9, as amended: for a query `q` whose upper-casing lower-cases to the lower-cased `q`,
and on which lower-casing twice is lower-casing once (every query of Basic Latin
characters is such, `latinCase_ascii`), `searchItemByName` returns for the upper-cased `q`
and for the lower-cased `q` the list it returns for `q`: the same items in the same order. -/
theorem searchItemByName_case (cm : CaseMapping) (h : Heap) (inv : Inventory) (q : String)
    (hup : cm.toLowerCase (cm.toUpperCase q) = cm.toLowerCase q)
    (hlow : cm.toLowerCase (cm.toLowerCase q) = cm.toLowerCase q) :
    inv.searchItemByName cm h (cm.toUpperCase q) = inv.searchItemByName cm h q ∧
    inv.searchItemByName cm h (cm.toLowerCase q) = inv.searchItemByName cm h q := by
  unfold Inventory.searchItemByName
  rw [hup, hlow]
  exact ⟨rfl, rfl⟩

/-- The query `Sword` on a catalog of two items. -/
theorem searchItemByName_case_witness :
    latinCase.toLowerCase (latinCase.toUpperCase "Sword") = latinCase.toLowerCase "Sword" ∧
    latinCase.toLowerCase (latinCase.toLowerCase "Sword") = latinCase.toLowerCase "Sword" ∧
    (Inventory.mk [0, 1]).searchItemByName latinCase strasseHeap (latinCase.toUpperCase "Sword")
      = (Inventory.mk [0, 1]).searchItemByName latinCase strasseHeap "Sword" ∧
    (Inventory.mk [0, 1]).searchItemByName latinCase strasseHeap (latinCase.toLowerCase "Sword")
      = (Inventory.mk [0, 1]).searchItemByName latinCase strasseHeap "Sword" :=
  ⟨by decide, by decide,
    searchItemByName_case latinCase strasseHeap (Inventory.mk [0, 1]) "Sword"
      (by decide) (by decide)⟩

/-- C9 as stated fails for the query `ß`: it finds the item named `Straße`, while its
upper-casing `SS`, lower-cased to `ss` by the search, finds nothing. -/
theorem searchItemByName_case_fails_eszett :
    latinCase.toUpperCase "ß" = "SS" ∧
    (Inventory.mk [0, 1]).searchItemByName latinCase strasseHeap "ß" = [0] ∧
    (Inventory.mk [0, 1]).searchItemByName latinCase strasseHeap (latinCase.toUpperCase "ß")
      = [] ∧
    ¬ ((Inventory.mk [0, 1]).searchItemByName latinCase strasseHeap (latinCase.toUpperCase "ß")
      = (Inventory.mk [0, 1]).searchItemByName latinCase strasseHeap "ß") := by
  decide

/-- C10: `searchItemByName(q)` returns exactly the items of the catalog whose lower-cased
name contains the lower-cased `q` as a contiguous run of characters; the result is a
subsequence of `listAllItems()` that contains every subsequence of matching items (each
matching entry once, in catalog order); for the empty query it is the full item list. -/
theorem searchItemByName_matches (cm : CaseMapping) (h : Heap) (inv : Inventory) (q : String) :
    (∀ r, r ∈ inv.searchItemByName cm h q ↔
      r ∈ inv.listAllItems ∧ (cm.toLowerCase q).data <:+: (cm.toLowerCase (h r).name).data) ∧
    (inv.searchItemByName cm h q).Sublist inv.listAllItems ∧
    (∀ l : List Ref, l.Sublist inv.listAllItems →
      (∀ r ∈ l, (cm.toLowerCase q).data <:+: (cm.toLowerCase (h r).name).data) →
      l.Sublist (inv.searchItemByName cm h q)) ∧
    inv.searchItemByName cm h "" = inv.listAllItems := by
  refine ⟨?_, ?_, ?_, ?_⟩
  · intro r
    simp [Inventory.searchItemByName, Inventory.listAllItems, List.mem_filter,
      includes_iff_contiguous]
  · exact List.filter_sublist _
  · intro l hl hall
    have hfil : l.filter (fun item =>
        includes (cm.toLowerCase (h item).name) (cm.toLowerCase q)) = l := by
      rw [List.filter_eq_self]
      intro r hr
      exact (includes_iff_contiguous _ _).mpr (hall r hr)
    have := hl.filter (fun item => includes (cm.toLowerCase (h item).name) (cm.toLowerCase q))
    rw [hfil] at this
    exact this
  · unfold Inventory.searchItemByName Inventory.listAllItems
    rw [List.filter_eq_self]
    intro r _
    rw [cm.toLowerCase_empty, includes_iff_contiguous]
    exact List.nil_infix

/-! ## Claims on the items and the inventory -/

/-- C11: after `reduceQuantity(count)` the quantity of the item is `max(0, q - count)`, `q`
being its quantity before; it is not below `0`, and it is `0` whenever `count >= q`. The
same holds of the object behind the reference in the program state. -/
theorem reduceQuantity_clamped (it : Item) (count : Int) (w : World) (r : Ref) :
    (it.reduceQuantity count).quantity = max 0 (it.quantity - count) ∧
    0 ≤ (it.reduceQuantity count).quantity ∧
    (count ≥ it.quantity → (it.reduceQuantity count).quantity = 0) ∧
    ((w.step (Call.reduceQuantity r count)).heap r).quantity
      = max 0 ((w.heap r).quantity - count) := by
  refine ⟨rfl, ?_, ?_, ?_⟩
  · simp [Item.reduceQuantity]
  · intro hc
    simp only [Item.reduceQuantity]
    omega
  · simp [World.step, Heap.modify, Item.reduceQuantity]

/-- C12: `removeItem(id)` is total; afterwards `getItemById(id)` is not-found, the item
list is a subsequence of the previous one that contains every subsequence of it without an
item of that id (the items of other ids are kept, in their order), and when no item had the
id the item list is unchanged. -/
theorem removeItem_deletes (h : Heap) (inv : Inventory) (itemId : Int) :
    (inv.removeItem h itemId).getItemById h itemId = none ∧
    (inv.removeItem h itemId).listAllItems.Sublist inv.listAllItems ∧
    (∀ l : List Ref, l.Sublist inv.listAllItems → (∀ r ∈ l, (h r).id ≠ itemId) →
      l.Sublist (inv.removeItem h itemId).listAllItems) ∧
    ((∀ r ∈ inv.listAllItems, (h r).id ≠ itemId) →
      (inv.removeItem h itemId).listAllItems = inv.listAllItems) := by
  refine ⟨?_, ?_, ?_, ?_⟩
  · simp [Inventory.getItemById, Inventory.removeItem, List.find?_eq_none]
  · exact List.filter_sublist _
  · intro l hl hall
    have hfil : l.filter (fun item => (h item).id != itemId) = l := by
      rw [List.filter_eq_self]
      intro r hr
      simpa using hall r hr
    have := hl.filter (fun item => (h item).id != itemId)
    rw [hfil] at this
    exact this
  · intro hall
    simp only [Inventory.removeItem, Inventory.listAllItems, List.filter_eq_self]
    intro r hr
    simpa using hall r hr

/-- When `find` returns the reference `r`, the item list splits around it and no earlier
item has the id. -/
theorem getItemById_split (h : Heap) (id : Int) :
    ∀ (l : List Ref) (r : Ref), l.find? (fun item => (h item).id == id) = some r →
      ∃ pre post, l = pre ++ r :: post ∧ (∀ x ∈ pre, (h x).id ≠ id) ∧ (h r).id = id := by
  intro l
  induction l with
  | nil => intro r hf; simp at hf
  | cons x rest ih =>
    intro r hf
    by_cases hid : (h x).id = id
    · have hxr : x = r := by simpa [List.find?, hid] using hf
      subst hxr
      exact ⟨[], rest, rfl, by simp, hid⟩
    · have hb : ((h x).id == id) = false := by simpa using hid
      rw [List.find?_cons, hb] at hf
      obtain ⟨pre, post, hl, hpre, hr⟩ := ih r hf
      refine ⟨x :: pre, post, by simp [hl], ?_, hr⟩
      intro y hy
      rcases List.mem_cons.mp hy with rfl | hy
      · exact hid
      · exact hpre y hy

/-- C13: `getItemById(id)` is not-found exactly when no item of the catalog has the id;
otherwise it returns the first item of the catalog, in catalog order, whose id is `id`;
and after `addItem(item)` on a catalog with no item of id `item.id`,
`getItemById(item.id)` returns `item`. -/
theorem getItemById_finds (h : Heap) (inv : Inventory) (id : Int) (item : Ref) :
    (inv.getItemById h id = none ↔ ∀ r ∈ inv.listAllItems, (h r).id ≠ id) ∧
    (∀ r, inv.getItemById h id = some r →
      ∃ pre post, inv.listAllItems = pre ++ r :: post ∧
        (∀ x ∈ pre, (h x).id ≠ id) ∧ (h r).id = id) ∧
    ((∀ r ∈ inv.listAllItems, (h r).id ≠ (h item).id) →
      (inv.addItem item).getItemById h (h item).id = some item) := by
  refine ⟨?_, ?_, ?_⟩
  · simp [Inventory.getItemById, Inventory.listAllItems, List.find?_eq_none]
  · intro r hr
    exact getItemById_split h id inv.items r hr
  · intro hall
    simp only [Inventory.getItemById, Inventory.addItem]
    rw [List.find?_append]
    have hnone : inv.items.find? (fun x => (h x).id == (h item).id) = none := by
      rw [List.find?_eq_none]
      intro x hx
      simpa using hall x hx
    simp [hnone]

/-- C14: after `addItem(item)`, `listAllItems()` is the previous list followed by `item`;
after any sequence of `addItem` calls on the empty inventory it is the sequence of the
items added, in the order added, repetitions of an id included. -/
theorem addItem_appends (inv : Inventory) (item : Ref) (items : List Ref) :
    (inv.addItem item).listAllItems = inv.listAllItems ++ [item] ∧
    (items.foldl Inventory.addItem Inventory.new).listAllItems = items := by
  refine ⟨rfl, ?_⟩
  have key : ∀ (l : List Ref) (i : Inventory),
      (l.foldl Inventory.addItem i).listAllItems = i.listAllItems ++ l := by
    intro l
    induction l with
    | nil => intro i; simp
    | cons x xs ih =>
      intro i
      rw [List.foldl_cons, ih]
      simp [Inventory.addItem, Inventory.listAllItems]
  rw [key]
  simp [Inventory.new, Inventory.listAllItems]

/-! ## Distinct item ids of the cart lines -/

/-- The in-place update keeps the item of every line. -/
theorem incrementFirst_map_item (h : Heap) (itemId quantity : Int) (l : List CartLine) :
    (Cart.incrementFirst h itemId quantity l).map (fun ci => ci.item)
      = l.map (fun ci => ci.item) := by
  induction l with
  | nil => rfl
  | cons ci rest ih =>
    by_cases hid : (h ci.item).id = itemId
    · simp [Cart.incrementFirst, hid]
    · simp [Cart.incrementFirst, hid, ih]

theorem lineIds_eq_map_item (h : Heap) (c : Cart) :
    c.lineIds h = (c.cartItems.map (fun ci => ci.item)).map (fun r => (h r).id) := by
  simp [Cart.lineIds, List.map_map, Function.comp_def]

theorem lineIds_nodup_addToCart (h : Heap) (c : Cart) (item : Ref) (quantity : Int)
    (hc : (c.lineIds h).Nodup) : ((c.addToCart h item quantity).cart.lineIds h).Nodup := by
  unfold Cart.addToCart
  cases hf : c.cartItems.find? (fun ci => (h ci.item).id == (h item).id) with
  | none =>
    by_cases hq : quantity > (h item).quantity
    · simpa [hq] using hc
    · have hnone := (find?_id_eq_none h _ _).mp hf
      simp only [hq, if_false, Cart.lineIds, List.map_append, List.map_cons, List.map_nil]
      rw [List.nodup_append]
      refine ⟨hc, by simp, ?_⟩
      intro a ha hb
      rw [List.mem_singleton] at hb
      obtain ⟨x, hx, hxa⟩ := List.mem_map.mp ha
      exact hnone x hx (hxa.trans hb)
  | some e =>
    by_cases hq : e.quantityInCart + quantity > (h item).quantity
    · simpa [hq] using hc
    · simp only [hq, if_false]
      rw [lineIds_eq_map_item, incrementFirst_map_item, ← lineIds_eq_map_item]
      exact hc

theorem lineIds_nodup_step (h : Heap) (c : Cart) (op : CartOp)
    (hc : (c.lineIds h).Nodup) : ((c.step h op).lineIds h).Nodup := by
  cases op with
  | addToCart item quantity => exact lineIds_nodup_addToCart h c item quantity hc
  | removeFromCart itemId =>
    exact hc.sublist ((List.filter_sublist _).map _)
  | clearCart => simp [Cart.step, Cart.clearCart, Cart.lineIds]

theorem lineIds_nodup_run (h : Heap) (ops : List CartOp) :
    ∀ c : Cart, (c.lineIds h).Nodup → ((c.run h ops).lineIds h).Nodup := by
  induction ops with
  | nil => intro c hc; exact hc
  | cons op ops ih => intro c hc; exact ih _ (lineIds_nodup_step h c op hc)

/-! ## Claims on `Cart.clearCart` and on the reachable carts -/

/-- C18: after `clearCart()`, `getCartItems()` is the empty sequence and `getCartTotal()`
is `0`, whatever the cart held; so it is for `myCart` in any state of the program. -/
theorem clearCart_empties (h : Heap) (c : Cart) (w : World) :
    c.clearCart.getCartItems = [] ∧ c.clearCart.getCartTotal h = 0 ∧
    (w.step Call.clearCart).myCart.getCartItems = [] ∧
    (w.step Call.clearCart).myCart.getCartTotal (w.step Call.clearCart).heap = 0 := by
  refine ⟨?_, ?_, ?_, ?_⟩
  · simp [Cart.clearCart, Cart.getCartItems]
  · simp [Cart.clearCart, Cart.getCartTotal]
  · simp [World.step, World.clearCart, Cart.getCartItems]
  · simp [World.step, World.clearCart, Cart.getCartTotal]

/-- C19: in the cart reached from the empty cart by any sequence of `addToCart`,
`removeFromCart` and `clearCart` calls, the item ids of the lines are pairwise distinct,
so no id has more than one line. -/
theorem lineIds_distinct (h : Heap) (ops : List CartOp) (itemId : Int) :
    ((Cart.run h Cart.new ops).cartItems.Pairwise
      (fun a b => (h a.item).id ≠ (h b.item).id)) ∧
    (Cart.run h Cart.new ops).cartItems.countP (fun ci => (h ci.item).id == itemId) ≤ 1 := by
  have hnd : ((Cart.run h Cart.new ops).lineIds h).Nodup :=
    lineIds_nodup_run h ops Cart.new (by simp [Cart.lineIds, Cart.new])
  constructor
  · have := hnd
    unfold Cart.lineIds List.Nodup at this
    rw [List.pairwise_map] at this
    exact this
  · have hcount := List.nodup_iff_count_le_one.mp hnd itemId
    unfold Cart.lineIds at hcount
    rw [List.count_eq_countP, List.countP_map] at hcount
    simpa [Function.comp_def] using hcount

theorem positive_addToCart (h : Heap) (c : Cart) (item : Ref) (quantity : Int)
    (hq0 : 0 < quantity) (hc : ∀ ci ∈ c.cartItems, 1 ≤ ci.quantityInCart) :
    ∀ ci ∈ (c.addToCart h item quantity).cart.cartItems, 1 ≤ ci.quantityInCart := by
  unfold Cart.addToCart
  cases hf : c.cartItems.find? (fun ci => (h ci.item).id == (h item).id) with
  | none =>
    by_cases hq : quantity > (h item).quantity
    · simpa [hq] using hc
    · intro ci hci
      simp only [hq, if_false, List.mem_append, List.mem_singleton] at hci
      rcases hci with hci | rfl
      · exact hc ci hci
      · exact hq0
  | some e =>
    by_cases hq : e.quantityInCart + quantity > (h item).quantity
    · simpa [hq] using hc
    · obtain ⟨pre, post, hl, -, -, hinc⟩ :=
        incrementFirst_split h (h item).id quantity c.cartItems e hf
      have he : 1 ≤ e.quantityInCart := hc e (by rw [hl]; simp)
      intro ci hci
      simp only [hq, if_false, hinc, List.mem_append, List.mem_cons] at hci
      rcases hci with hci | rfl | hci
      · exact hc ci (by rw [hl]; simp [hci])
      · show 1 ≤ e.quantityInCart + quantity
        omega
      · exact hc ci (by rw [hl]; simp [hci])

theorem positive_run (h : Heap) (ops : List CartOp) :
    ∀ c : Cart, (∀ q ∈ addedQuantities ops, 0 < q) →
      (∀ ci ∈ c.cartItems, 1 ≤ ci.quantityInCart) →
      ∀ ci ∈ (c.run h ops).cartItems, 1 ≤ ci.quantityInCart := by
  induction ops with
  | nil => intro c _ hc; exact hc
  | cons op ops ih =>
    intro c hqs hc
    have hrun : Cart.run h c (op :: ops) = Cart.run h (Cart.step h c op) ops := rfl
    rw [hrun]
    cases op with
    | addToCart item quantity =>
      refine ih _ (fun q hq => hqs q (by simp [addedQuantities, hq])) ?_
      exact positive_addToCart h c item quantity (hqs quantity (by simp [addedQuantities])) hc
    | removeFromCart itemId =>
      refine ih _ (fun q hq => hqs q (by simpa [addedQuantities] using hq)) ?_
      intro ci hci
      exact hc ci (List.mem_of_mem_filter hci)
    | clearCart =>
      refine ih _ (fun q hq => hqs q (by simpa [addedQuantities] using hq)) ?_
      intro ci hci
      simp [Cart.step, Cart.clearCart] at hci

/-- C20: when every quantity passed to `addToCart` is positive, every line of the cart
reached from the empty cart has `quantityInCart >= 1`; if moreover every item price is
non-negative, `getCartTotal()` is non-negative. -/
theorem lines_positive (h : Heap) (ops : List CartOp)
    (hqs : ∀ q ∈ addedQuantities ops, 0 < q) :
    (∀ ci ∈ (Cart.run h Cart.new ops).cartItems, 1 ≤ ci.quantityInCart) ∧
    ((∀ r, 0 ≤ (h r).price) → 0 ≤ (Cart.run h Cart.new ops).getCartTotal h) := by
  have hpos := positive_run h ops Cart.new hqs (by simp [Cart.new])
  refine ⟨hpos, ?_⟩
  intro hprice
  unfold Cart.getCartTotal
  rw [foldl_add_eq_sum (fun ci : CartLine => (h ci.item).price * ci.quantityInCart)]
  rw [zero_add]
  apply List.sum_nonneg
  intro x hx
  obtain ⟨ci, hci, rfl⟩ := List.mem_map.mp hx
  exact mul_nonneg (hprice ci.item) (by have := hpos ci hci; omega)

/-- Three units of the coin and two of another item added, one line removed. -/
theorem lines_positive_witness :
    (∀ q ∈ addedQuantities [CartOp.addToCart 3 2, CartOp.addToCart 5 2,
        CartOp.addToCart 3 1, CartOp.removeFromCart 5], 0 < q) ∧
    (∀ ci ∈ (Cart.run coinHeap Cart.new [CartOp.addToCart 3 2, CartOp.addToCart 5 2,
        CartOp.addToCart 3 1, CartOp.removeFromCart 5]).cartItems, 1 ≤ ci.quantityInCart) ∧
    0 ≤ (Cart.run coinHeap Cart.new [CartOp.addToCart 3 2, CartOp.addToCart 5 2,
        CartOp.addToCart 3 1, CartOp.removeFromCart 5]).getCartTotal coinHeap :=
  ⟨by decide,
    (lines_positive coinHeap [CartOp.addToCart 3 2, CartOp.addToCart 5 2,
      CartOp.addToCart 3 1, CartOp.removeFromCart 5] (by decide)).1,
    (lines_positive coinHeap [CartOp.addToCart 3 2, CartOp.addToCart 5 2,
      CartOp.addToCart 3 1, CartOp.removeFromCart 5] (by decide)).2 (fun r => by simp [coinHeap, Item.plain])⟩

/-! ## Cart calls and item fields -/

/-- The world-level `addToCart` does to the cart what `Cart.addToCart` does, and gives the
same alert. -/
theorem World.addToCart_eq (w : World) (item : Ref) (quantity : Int) :
    w.addToCart item quantity
      = ({ w with myCart := (w.myCart.addToCart w.heap item quantity).cart },
          (w.myCart.addToCart w.heap item quantity).alert) := by
  unfold World.addToCart Cart.addToCart
  cases hf : w.myCart.cartItems.find? (fun ci => (w.heap ci.item).id == (w.heap item).id) with
  | none =>
    by_cases hq : quantity > (w.heap item).quantity
    · simp [hq]
    · simp [hq]
  | some e =>
    by_cases hq : e.quantityInCart + quantity > (w.heap item).quantity
    · simp [hq]
    · simp [hq]

theorem World.step_addToCart_myCart (w : World) (item : Ref) (quantity : Int) :
    (w.step (Call.addToCart item quantity)).myCart
      = (w.myCart.addToCart w.heap item quantity).cart := by
  simp only [World.step, World.addToCart_eq]

/-- `addToCart`, accepted or rejected, returns the item objects as it was given them. -/
theorem World.addToCart_heap (w : World) (item : Ref) (quantity : Int) :
    (w.addToCart item quantity).1.heap = w.heap := by
  unfold World.addToCart
  cases hf : w.myCart.cartItems.find? (fun ci => (w.heap ci.item).id == (w.heap item).id) with
  | none =>
    by_cases hq : quantity > (w.heap item).quantity
    · simp [hq]
    · simp [hq]
  | some e =>
    by_cases hq : e.quantityInCart + quantity > (w.heap item).quantity
    · simp [hq]
    · simp [hq]

/-- A cart call returns the item objects as it was given them. -/
theorem World.step_heap_of_isCartCall (w : World) (call : Call)
    (hcall : call.isCartCall = true) : (w.step call).heap = w.heap := by
  cases call with
  | addToCart item quantity => exact World.addToCart_heap w item quantity
  | removeFromCart itemId => simp [World.step, World.removeFromCart]
  | clearCart => simp [World.step, World.clearCart]
  | getCartItems => simp [World.step, World.getCartItems]
  | getCartTotal => simp [World.step, World.getCartTotal]
  | reduceQuantity item count => simp [Call.isCartCall] at hcall
  | updateCondition item newCondition => simp [Call.isCartCall] at hcall
  | updatePrice item newPrice => simp [Call.isCartCall] at hcall
  | addItem item => simp [Call.isCartCall] at hcall
  | removeItem itemId => simp [Call.isCartCall] at hcall
  | searchItemByName name => simp [Call.isCartCall] at hcall
  | listAllItems => simp [Call.isCartCall] at hcall
  | getItemById id => simp [Call.isCartCall] at hcall

theorem World.run_heap_of_isCartCall (calls : List Call) :
    ∀ w : World, (∀ call ∈ calls, call.isCartCall = true) → (w.run calls).heap = w.heap := by
  induction calls with
  | nil => intro w _; rfl
  | cons call calls ih =>
    intro w hall
    have hrun : w.run (call :: calls) = (w.step call).run calls := rfl
    rw [hrun, ih (w.step call) (fun c hc => hall c (by simp [hc])),
      World.step_heap_of_isCartCall w call (hall call (by simp))]

/-- C16: a call of a `Cart` method (`addToCart`, rejected or not, `removeFromCart`,
`clearCart`, `getCartItems`, `getCartTotal`), each taken as a transition of the whole
program state, leaves the quantity, the price and the id of every item as they were, and so
does any sequence of such calls; and a call after which the quantity of item `r` differs
is `reduceQuantity` on `r`. -/
theorem cart_calls_keep_items (w : World) (call : Call) (calls : List Call) (r : Ref) :
    (call.isCartCall = true →
      ((w.step call).heap r).quantity = (w.heap r).quantity ∧
      ((w.step call).heap r).price = (w.heap r).price ∧
      ((w.step call).heap r).id = (w.heap r).id) ∧
    ((∀ c ∈ calls, c.isCartCall = true) →
      ((w.run calls).heap r).quantity = (w.heap r).quantity ∧
      ((w.run calls).heap r).price = (w.heap r).price ∧
      ((w.run calls).heap r).id = (w.heap r).id) ∧
    (((w.step call).heap r).quantity ≠ (w.heap r).quantity →
      ∃ count, call = Call.reduceQuantity r count) := by
  refine ⟨?_, ?_, ?_⟩
  · intro hcall
    rw [World.step_heap_of_isCartCall w call hcall]
    exact ⟨rfl, rfl, rfl⟩
  · intro hall
    rw [World.run_heap_of_isCartCall calls w hall]
    exact ⟨rfl, rfl, rfl⟩
  · intro hne
    cases call with
    | reduceQuantity item count =>
      by_cases hr : r = item
      · subst hr; exact ⟨count, rfl⟩
      · exact absurd (by simp [World.step, Heap.modify, hr]) hne
    | updateCondition item newCondition =>
      by_cases hr : r = item
      · exact absurd (by simp [World.step, Heap.modify, hr, Item.updateCondition]) hne
      · exact absurd (by simp [World.step, Heap.modify, hr]) hne
    | updatePrice item newPrice =>
      by_cases hr : r = item
      · exact absurd (by simp [World.step, Heap.modify, hr, Item.updatePrice]) hne
      · exact absurd (by simp [World.step, Heap.modify, hr]) hne
    | addItem item => exact absurd rfl hne
    | removeItem itemId => exact absurd rfl hne
    | searchItemByName name => exact absurd rfl hne
    | listAllItems => exact absurd rfl hne
    | getItemById id => exact absurd rfl hne
    | addToCart item quantity =>
      exact absurd (by rw [World.step_heap_of_isCartCall w (Call.addToCart item quantity) rfl])
        hne
    | removeFromCart itemId =>
      exact absurd (by rw [World.step_heap_of_isCartCall w (Call.removeFromCart itemId) rfl])
        hne
    | clearCart =>
      exact absurd (by rw [World.step_heap_of_isCartCall w Call.clearCart rfl]) hne
    | getCartItems =>
      exact absurd (by rw [World.step_heap_of_isCartCall w Call.getCartItems rfl]) hne
    | getCartTotal =>
      exact absurd (by rw [World.step_heap_of_isCartCall w Call.getCartTotal rfl]) hne

/-! ## Price changes and the cart total -/

/-- A method that keeps the id of the item keeps the ids of the cart lines. -/
theorem lineIds_modify (h : Heap) (r : Ref) (f : Item → Item) (hf : ∀ it, (f it).id = it.id)
    (c : Cart) : c.lineIds (h.modify r f) = c.lineIds h := by
  unfold Cart.lineIds
  apply List.map_congr_left
  intro ci _
  by_cases hr : ci.item = r
  · simp [Heap.modify, hr, hf]
  · simp [Heap.modify, hr]

theorem lineIds_nodup_world_step (w : World) (call : Call)
    (hw : (w.myCart.lineIds w.heap).Nodup) :
    ((w.step call).myCart.lineIds (w.step call).heap).Nodup := by
  cases call with
  | reduceQuantity item count =>
    simp only [World.step]
    rw [lineIds_modify w.heap item (fun it => it.reduceQuantity count) (fun it => rfl)]
    exact hw
  | updateCondition item newCondition =>
    simp only [World.step]
    rw [lineIds_modify w.heap item (fun it => it.updateCondition newCondition) (fun it => rfl)]
    exact hw
  | updatePrice item newPrice =>
    simp only [World.step]
    rw [lineIds_modify w.heap item (fun it => it.updatePrice newPrice) (fun it => rfl)]
    exact hw
  | addItem item => exact hw
  | removeItem itemId => exact hw
  | searchItemByName name => exact hw
  | listAllItems => exact hw
  | getItemById id => exact hw
  | addToCart item quantity =>
    rw [World.step_heap_of_isCartCall w (Call.addToCart item quantity) rfl,
      World.step_addToCart_myCart]
    exact lineIds_nodup_addToCart w.heap w.myCart item quantity hw
  | removeFromCart itemId =>
    exact lineIds_nodup_step w.heap w.myCart (CartOp.removeFromCart itemId) hw
  | clearCart => exact lineIds_nodup_step w.heap w.myCart CartOp.clearCart hw
  | getCartItems => exact hw
  | getCartTotal => exact hw

theorem lineIds_nodup_world_run (calls : List Call) :
    ∀ w : World, (w.myCart.lineIds w.heap).Nodup →
      ((w.run calls).myCart.lineIds (w.run calls).heap).Nodup := by
  induction calls with
  | nil => intro w hw; exact hw
  | cons call calls ih => intro w hw; exact ih _ (lineIds_nodup_world_step w call hw)

/-- With pairwise distinct line ids, a new price of the item of line `ci` changes the sum
of `item.price * quantityInCart` by the term of that line only. -/
theorem sum_modify_price (h : Heap) (p : Int) (ci : CartLine) :
    ∀ l : List CartLine, (l.map (fun x => (h x.item).id)).Nodup → ci ∈ l →
      (l.map (fun x =>
          ((h.modify ci.item (fun it => it.updatePrice p)) x.item).price
            * x.quantityInCart)).sum
        = (l.map (fun x => (h x.item).price * x.quantityInCart)).sum
          - (h ci.item).price * ci.quantityInCart + p * ci.quantityInCart := by
  intro l
  induction l with
  | nil => intro _ hci; simp at hci
  | cons x xs ih =>
    intro hnd hci
    rw [List.map_cons, List.nodup_cons] at hnd
    obtain ⟨hx, hxs⟩ := hnd
    rcases List.mem_cons.mp hci with rfl | hmem
    · have htail : xs.map (fun x =>
          ((h.modify ci.item (fun it => it.updatePrice p)) x.item).price * x.quantityInCart)
          = xs.map (fun x => (h x.item).price * x.quantityInCart) := by
        apply List.map_congr_left
        intro y hy
        have hne : y.item ≠ ci.item := by
          intro heq
          exact hx (List.mem_map.mpr ⟨y, hy, by rw [heq]⟩)
        simp [Heap.modify, hne]
      simp only [List.map_cons, List.sum_cons, htail]
      simp only [Heap.modify, if_true, Item.updatePrice]
      ring
    · have hne : x.item ≠ ci.item := by
        intro heq
        exact hx (List.mem_map.mpr ⟨ci, hmem, by rw [heq]⟩)
      simp only [List.map_cons, List.sum_cons, ih hxs hmem]
      simp only [Heap.modify, hne, if_false]
      ring

/-- Two folds whose steps agree on the elements of the list agree. -/
theorem foldl_congr_mem {α β : Type} (f g : β → α → β) (l : List α) :
    (∀ x ∈ l, ∀ s, f s x = g s x) → ∀ a, l.foldl f a = l.foldl g a := by
  induction l with
  | nil => intro _ a; rfl
  | cons x xs ih =>
    intro hfg a
    rw [List.foldl_cons, List.foldl_cons, hfg x (by simp) a]
    exact ih (fun y hy => hfg y (by simp [hy])) _

/-- With pairwise distinct line ids, after `updatePrice(p)` on the item of line `ci` the
price read through a line of the cart is `p` for `ci` and the old one for any other. -/
theorem price_after_updatePrice (h : Heap) (p : Int) (ci : CartLine) (l : List CartLine)
    (hnd : (l.map (fun x => (h x.item).id)).Nodup) (hci : ci ∈ l) :
    ∀ x ∈ l, ((h.modify ci.item (fun it => it.updatePrice p)) x.item).price
      = if x = ci then p else (h x.item).price := by
  intro x hx
  by_cases hxc : x = ci
  · subst hxc
    simp [Heap.modify, Item.updatePrice]
  · have hne : x.item ≠ ci.item := by
      intro heq
      exact hxc (List.inj_on_of_nodup_map hnd hx hci (by simp only [heq]))
    simp [Heap.modify, hne, hxc]

/-- The same for a price of the host written by `updatePrice64`. -/
theorem price_after_updatePrice64 (h : Heap) (price : Ref → Binary64) (p : Binary64)
    (ci : CartLine) (l : List CartLine)
    (hnd : (l.map (fun x => (h x.item).id)).Nodup) (hci : ci ∈ l) :
    ∀ x ∈ l, updatePrice64 price ci.item p x.item = if x = ci then p else price x.item := by
  intro x hx
  by_cases hxc : x = ci
  · subst hxc
    simp [updatePrice64]
  · have hne : x.item ≠ ci.item := by
      intro heq
      exact hxc (List.inj_on_of_nodup_map hnd hx hci (by simp only [heq]))
    simp [updatePrice64, hne, hxc]

/-- C15, as amended: in any state the program reaches, if the cart holds the line `ci` and
the price of its item is then changed by `updatePrice(p)`, the cart keeps its lines and
`getCartTotal()` is the sum, accumulated in line order, of `price * quantityInCart` with
`p` as the price of the line `ci` and the unchanged price of the item of every other line,
for integer prices and for prices of the host alike; the prices being integers, that total
is the old total minus `oldPrice * quantityInCart` plus `p * quantityInCart`. -/
theorem getCartTotal_reads_current_price (heap : Heap) (calls : List Call) (ci : CartLine)
    (p : Int) (price : Ref → Binary64) (p64 : Binary64)
    (hci : ci ∈ ((World.init heap).run calls).myCart.cartItems) :
    (((World.init heap).run calls).step (Call.updatePrice ci.item p)).myCart
      = ((World.init heap).run calls).myCart ∧
    (((World.init heap).run calls).step (Call.updatePrice ci.item p)).myCart.getCartTotal
        (((World.init heap).run calls).step (Call.updatePrice ci.item p)).heap
      = ((World.init heap).run calls).myCart.cartItems.foldl
          (fun sum x =>
            sum + (if x = ci then p else (((World.init heap).run calls).heap x.item).price)
              * x.quantityInCart)
          0 ∧
    ((World.init heap).run calls).myCart.getCartTotal64 (updatePrice64 price ci.item p64)
      = ((World.init heap).run calls).myCart.cartItems.foldl
          (fun sum x =>
            sum.add ((if x = ci then p64 else price x.item).mul
              (Binary64.ofInt x.quantityInCart)))
          (Binary64.ofInt 0) ∧
    (((World.init heap).run calls).step (Call.updatePrice ci.item p)).myCart.getCartTotal
        (((World.init heap).run calls).step (Call.updatePrice ci.item p)).heap
      = ((World.init heap).run calls).myCart.getCartTotal ((World.init heap).run calls).heap
        - (((World.init heap).run calls).heap ci.item).price * ci.quantityInCart
        + p * ci.quantityInCart := by
  have hnd := lineIds_nodup_world_run calls (World.init heap)
    (by simp [World.init, Cart.lineIds, Cart.new])
  generalize (World.init heap).run calls = w at hci hnd ⊢
  refine ⟨rfl, ?_, ?_, ?_⟩
  · simp only [World.step, Cart.getCartTotal]
    apply foldl_congr_mem
    intro x hx s
    rw [price_after_updatePrice w.heap p ci w.myCart.cartItems hnd hci x hx]
  · unfold Cart.getCartTotal64
    apply foldl_congr_mem
    intro x hx s
    rw [price_after_updatePrice64 w.heap price p64 ci w.myCart.cartItems hnd hci x hx]
  · simp only [World.step, Cart.getCartTotal]
    rw [foldl_add_eq_sum (fun x : CartLine =>
        ((w.heap.modify ci.item (fun it => it.updatePrice p)) x.item).price * x.quantityInCart),
      foldl_add_eq_sum (fun x : CartLine => (w.heap x.item).price * x.quantityInCart),
      zero_add, zero_add]
    exact sum_modify_price w.heap p ci w.myCart.cartItems hnd hci

/-- The price of item `1` is set to `700` after two units of it and one of item `3` were
added: the total goes from `1500` to `1900`. -/
theorem getCartTotal_reads_current_price_witness :
    ({ item := 1, quantityInCart := 2 } : CartLine) ∈
      ((World.init swordHeap).run
        [Call.addToCart 1 2, Call.addToCart 3 1]).myCart.cartItems ∧
    (((World.init swordHeap).run [Call.addToCart 1 2, Call.addToCart 3 1]).step
        (Call.updatePrice 1 700)).myCart.getCartTotal
      (((World.init swordHeap).run [Call.addToCart 1 2, Call.addToCart 3 1]).step
        (Call.updatePrice 1 700)).heap
      = 1500 - 500 * 2 + 700 * 2 :=
  ⟨by decide,
    (getCartTotal_reads_current_price swordHeap [Call.addToCart 1 2, Call.addToCart 3 1]
      { item := 1, quantityInCart := 2 } 700 decimalPrices (Binary64.nearest 995 100)
      (by decide)).2.2.2⟩

set_option maxRecDepth 100000 in
/-- C15 as stated fails on prices with decimals. The cart holds one unit of item `1`,
priced `19.99`, and one of item `2`, priced `4.35`; `getCartTotal()` is
`24.339999999999996`. After `updatePrice(9.95)` on item `1` it is `14.299999999999999`
(`8050184333924761 * 2 ^ -49`), while the old total minus `19.99 * 1` plus `9.95 * 1` is
`14.299999999999997` (`8050184333924760 * 2 ^ -49`). -/
theorem getCartTotal_identity_fails_on_decimals :
    (Cart.run swordHeap Cart.new [CartOp.addToCart 1 1, CartOp.addToCart 2 1]).cartItems
      = [{ item := 1, quantityInCart := 1 }, { item := 2, quantityInCart := 1 }] ∧
    (Cart.run swordHeap Cart.new
        [CartOp.addToCart 1 1, CartOp.addToCart 2 1]).getCartTotal64 decimalPrices
      = { mant := 6851100933137366, exp := -48 } ∧
    (Cart.run swordHeap Cart.new [CartOp.addToCart 1 1, CartOp.addToCart 2 1]).getCartTotal64
        (updatePrice64 decimalPrices 1 (Binary64.nearest 995 100))
      = { mant := 8050184333924761, exp := -49 } ∧
    (((Cart.run swordHeap Cart.new
          [CartOp.addToCart 1 1, CartOp.addToCart 2 1]).getCartTotal64 decimalPrices).sub
        ((decimalPrices 1).mul (Binary64.ofInt 1))).add
        ((Binary64.nearest 995 100).mul (Binary64.ofInt 1))
      = { mant := 8050184333924760, exp := -49 } ∧
    ¬ ((Cart.run swordHeap Cart.new [CartOp.addToCart 1 1, CartOp.addToCart 2 1]).getCartTotal64
          (updatePrice64 decimalPrices 1 (Binary64.nearest 995 100))
        = (((Cart.run swordHeap Cart.new
              [CartOp.addToCart 1 1, CartOp.addToCart 2 1]).getCartTotal64 decimalPrices).sub
            ((decimalPrices 1).mul (Binary64.ofInt 1))).add
            ((Binary64.nearest 995 100).mul (Binary64.ofInt 1))) := by
  decide

/-! ## Two calls of `addToCart` on one item -/

theorem Cart.eq_of_cartItems {c₁ c₂ : Cart} (hc : c₁.cartItems = c₂.cartItems) : c₁ = c₂ := by
  cases c₁; cases c₂; simp_all

theorem incrementFirst_append (h : Heap) (itemId quantity : Int) (e : CartLine)
    (post : List CartLine) (he : (h e.item).id = itemId) :
    ∀ pre : List CartLine, (∀ x ∈ pre, (h x.item).id ≠ itemId) →
      Cart.incrementFirst h itemId quantity (pre ++ e :: post)
        = pre ++ { item := e.item, quantityInCart := e.quantityInCart + quantity } :: post := by
  intro pre
  induction pre with
  | nil => intro _; simp [Cart.incrementFirst, he]
  | cons y pre ih =>
    intro hpre
    have hy : (h y.item).id ≠ itemId := hpre y (by simp)
    simp [Cart.incrementFirst, hy, ih (fun z hz => hpre z (by simp [hz]))]

theorem addToCart_cartItems_new (h : Heap) (c : Cart) (item : Ref) (quantity : Int)
    (hnone : ∀ x ∈ c.cartItems, (h x.item).id ≠ (h item).id)
    (hq : quantity ≤ (h item).quantity) :
    (c.addToCart h item quantity).cart.cartItems
      = c.cartItems ++ [{ item := item, quantityInCart := quantity }] := by
  have hf := (find?_id_eq_none h (h item).id c.cartItems).mpr hnone
  have hq2 : ¬ quantity > (h item).quantity := by omega
  simp [Cart.addToCart, hf, hq2]

theorem addToCart_cartItems_held (h : Heap) (c : Cart) (item : Ref) (quantity : Int)
    (pre post : List CartLine) (e : CartLine) (hl : c.cartItems = pre ++ e :: post)
    (hpre : ∀ x ∈ pre, (h x.item).id ≠ (h item).id) (he : (h e.item).id = (h item).id)
    (hq : e.quantityInCart + quantity ≤ (h item).quantity) :
    (c.addToCart h item quantity).cart.cartItems
      = pre ++ { item := e.item, quantityInCart := e.quantityInCart + quantity } :: post := by
  have hf : c.cartItems.find? (fun ci => (h ci.item).id == (h item).id) = some e := by
    rw [hl]; exact find?_split h (h item).id pre post e hpre he
  have hq2 : ¬ e.quantityInCart + quantity > (h item).quantity := by omega
  simp only [Cart.addToCart, hf, hq2, if_false]
  rw [hl]
  exact incrementFirst_append h (h item).id quantity e post he pre hpre

/-- Two calls within stock amount to one call of the sum, on any cart. -/
theorem addToCart_twice_cartItems (h : Heap) (c : Cart) (item : Ref) (a b : Int)
    (hb : 0 < b) (hstock : a + b + c.heldQuantity h (h item).id ≤ (h item).quantity) :
    ((c.addToCart h item a).cart.addToCart h item b).cart.cartItems
        = (c.addToCart h item (a + b)).cart.cartItems ∧
    (∃ e, (c.addToCart h item (a + b)).cart.lineFor h (h item).id = some e ∧
      e.quantityInCart = c.heldQuantity h (h item).id + (a + b)) ∧
    (c.lineFor h (h item).id = none →
      (c.addToCart h item (a + b)).cart.cartItems
        = c.cartItems ++ [{ item := item, quantityInCart := a + b }]) := by
  unfold Cart.heldQuantity Cart.lineFor at hstock ⊢
  cases hf : c.cartItems.find? (fun ci => (h ci.item).id == (h item).id) with
  | none =>
    rw [hf] at hstock
    simp only [add_zero] at hstock
    have hnone := (find?_id_eq_none h _ _).mp hf
    have h1 := addToCart_cartItems_new h c item a hnone (by omega)
    have h12 := addToCart_cartItems_new h c item (a + b) hnone (by omega)
    have h2 := addToCart_cartItems_held h (c.addToCart h item a).cart item b c.cartItems []
      { item := item, quantityInCart := a } h1 hnone rfl (by show a + b ≤ _; omega)
    refine ⟨by rw [h2, h12], ⟨{ item := item, quantityInCart := a + b }, ?_, by simp⟩,
      fun _ => h12⟩
    rw [h12]
    exact find?_split h (h item).id c.cartItems [] _ hnone rfl
  | some e =>
    rw [hf] at hstock
    simp only at hstock
    obtain ⟨pre, post, hl, hpre, he, -⟩ :=
      incrementFirst_split h (h item).id 0 c.cartItems e hf
    have h1 := addToCart_cartItems_held h c item a pre post e hl hpre he (by omega)
    have h12 := addToCart_cartItems_held h c item (a + b) pre post e hl hpre he (by omega)
    have h2 := addToCart_cartItems_held h (c.addToCart h item a).cart item b pre post
      { item := e.item, quantityInCart := e.quantityInCart + a } h1 hpre he
      (by show e.quantityInCart + a + b ≤ _; omega)
    refine ⟨?_, ⟨{ item := e.item, quantityInCart := e.quantityInCart + (a + b) }, ?_, rfl⟩,
      fun hn => by simp at hn⟩
    · rw [h2, h12]
      simp [add_assoc]
    · rw [h12]
      exact find?_split h (h item).id pre post _ hpre he

/-- C17, as amended: in any state the program reaches, for an item and `a`, `b` with `b`
positive and `a + b` plus the quantity already held for `item.id` at most `item.quantity`,
`addToCart(item, a)` followed by `addToCart(item, b)` gives the cart that
`addToCart(item, a + b)` gives; that cart has exactly one line for `item.id`, whose
`quantityInCart` is the quantity held before plus `a + b`; and if the cart held no line for
`item.id`, `getCartTotal()` has grown by `item.price * (a + b)`. -/
theorem addToCart_twice (heap : Heap) (calls : List Call) (item : Ref) (a b : Int)
    (hb : 0 < b)
    (hstock : a + b + ((World.init heap).run calls).myCart.heldQuantity
        ((World.init heap).run calls).heap (((World.init heap).run calls).heap item).id
      ≤ (((World.init heap).run calls).heap item).quantity) :
    ((((World.init heap).run calls).step (Call.addToCart item a)).step
        (Call.addToCart item b)).myCart
      = (((World.init heap).run calls).step (Call.addToCart item (a + b))).myCart ∧
    (((World.init heap).run calls).step (Call.addToCart item (a + b))).myCart.cartItems.countP
        (fun ci => ((((World.init heap).run calls).heap ci.item).id
          == (((World.init heap).run calls).heap item).id)) = 1 ∧
    (∃ e, (((World.init heap).run calls).step (Call.addToCart item (a + b))).myCart.lineFor
          ((World.init heap).run calls).heap (((World.init heap).run calls).heap item).id
        = some e ∧
      e.quantityInCart = ((World.init heap).run calls).myCart.heldQuantity
        ((World.init heap).run calls).heap (((World.init heap).run calls).heap item).id
        + (a + b)) ∧
    (((World.init heap).run calls).myCart.lineFor ((World.init heap).run calls).heap
        (((World.init heap).run calls).heap item).id = none →
      (((World.init heap).run calls).step (Call.addToCart item (a + b))).myCart.getCartTotal
          ((World.init heap).run calls).heap
        = ((World.init heap).run calls).myCart.getCartTotal ((World.init heap).run calls).heap
          + (((World.init heap).run calls).heap item).price * (a + b)) := by
  have hnd := lineIds_nodup_world_run calls (World.init heap)
    (by simp [World.init, Cart.lineIds, Cart.new])
  generalize (World.init heap).run calls = w at hstock hnd ⊢
  obtain ⟨htwice, ⟨e, hline, hqty⟩, hnew⟩ :=
    addToCart_twice_cartItems w.heap w.myCart item a b hb hstock
  have hheap : (w.step (Call.addToCart item a)).heap = w.heap :=
    World.step_heap_of_isCartCall w (Call.addToCart item a) rfl
  rw [World.step_addToCart_myCart, World.step_addToCart_myCart, World.step_addToCart_myCart,
    hheap]
  refine ⟨Cart.eq_of_cartItems htwice, ?_, ⟨e, hline, hqty⟩, ?_⟩
  · have hnd2 := lineIds_nodup_addToCart w.heap w.myCart item (a + b) hnd
    have hle := List.nodup_iff_count_le_one.mp hnd2 (w.heap item).id
    unfold Cart.lineIds at hle
    rw [List.count_eq_countP, List.countP_map] at hle
    have hpos : 0 < (w.myCart.addToCart w.heap item (a + b)).cart.cartItems.countP
        (fun ci => (w.heap ci.item).id == (w.heap item).id) := by
      rw [List.countP_pos_iff]
      unfold Cart.lineFor at hline
      have hp := List.find?_some hline
      exact ⟨e, List.mem_of_find?_eq_some hline, hp⟩
    have hle2 : (w.myCart.addToCart w.heap item (a + b)).cart.cartItems.countP
        (fun ci => (w.heap ci.item).id == (w.heap item).id) ≤ 1 := by
      simpa [Function.comp_def] using hle
    omega
  · intro hn
    unfold Cart.getCartTotal
    rw [hnew hn, List.foldl_append]
    simp

/-- Two units of the coin are held and its stock then reduced from `10` to `9`: three more
and then four more are both accepted, as seven more at once are, and the one line holds
`9`. -/
theorem addToCart_twice_witness :
    (0 : Int) < 4 ∧
    (3 : Int) + 4 + ((World.init coinHeap).run
          [Call.addToCart 3 2, Call.reduceQuantity 3 1]).myCart.heldQuantity
        ((World.init coinHeap).run [Call.addToCart 3 2, Call.reduceQuantity 3 1]).heap
        (((World.init coinHeap).run [Call.addToCart 3 2, Call.reduceQuantity 3 1]).heap 3).id
      ≤ (((World.init coinHeap).run
          [Call.addToCart 3 2, Call.reduceQuantity 3 1]).heap 3).quantity ∧
    ((((World.init coinHeap).run [Call.addToCart 3 2, Call.reduceQuantity 3 1]).step
        (Call.addToCart 3 3)).step (Call.addToCart 3 4)).myCart
      = (((World.init coinHeap).run [Call.addToCart 3 2, Call.reduceQuantity 3 1]).step
        (Call.addToCart 3 (3 + 4))).myCart ∧
    ((((World.init coinHeap).run [Call.addToCart 3 2, Call.reduceQuantity 3 1]).step
        (Call.addToCart 3 3)).step (Call.addToCart 3 4)).myCart.cartItems
      = [{ item := 3, quantityInCart := 9 }] :=
  ⟨by decide, by decide,
    (addToCart_twice coinHeap [Call.addToCart 3 2, Call.reduceQuantity 3 1] 3 3 4
      (by decide) (by decide)).1,
    by decide⟩

/-- C17 as stated fails on a cart that already holds the item: with stock `2` and one unit
held, `a = b = 1` satisfy `a + b <= item.quantity`; `addToCart(item, 1)` is accepted and
the second `addToCart(item, 1)` rejected, leaving `2`, while `addToCart(item, 2)` is
rejected, leaving `1`. -/
theorem addToCart_twice_fails_on_held_item :
    (1 : Int) + 1 ≤ (swordHeap 1).quantity ∧
    (((Cart.run swordHeap Cart.new [CartOp.addToCart 1 1]).addToCart swordHeap 1 1).cart.addToCart
        swordHeap 1 1).cart.cartItems = [{ item := 1, quantityInCart := 2 }] ∧
    ((Cart.run swordHeap Cart.new [CartOp.addToCart 1 1]).addToCart swordHeap 1
        (1 + 1)).cart.cartItems = [{ item := 1, quantityInCart := 1 }] ∧
    ¬ ((((Cart.run swordHeap Cart.new [CartOp.addToCart 1 1]).addToCart swordHeap 1
          1).cart.addToCart swordHeap 1 1).cart
        = ((Cart.run swordHeap Cart.new [CartOp.addToCart 1 1]).addToCart swordHeap 1
          (1 + 1)).cart) := by
  decide

end UniProj
